import Mathlib

/-!
Verification development for the shift scheduler (`shift_scheduler.py`).

The definitions below are a shallow embedding of the Python source:

* tabular inputs (pandas `DataFrame` rows) become Lean structures and lists
  of structures, iterated in frame order;
* the per-employee assigned-count dictionary (`Dict[str, int]`, read with
  `.get(sid, 0)` and written by `+= 1`) becomes a total function
  `String → Nat` that is zero outside the written keys, exactly matching the
  observable dictionary behaviour;
* Python's `sorted` (Timsort) and numpy's stable ascending sorts are embedded
  as a stable insertion sort `stableSort`: every stable ascending sort by the
  same key computes the same list, so this is semantics-preserving;
* money is embedded as `Int`: the pandas columns hold numbers and every
  arithmetic fact below is exact integer arithmetic.

Each claim theorem is stated against these definitions; spec-side
reformulations (used to compare the code against the natural-language
specification) are clearly marked with a `spec_` prefix.
-/

/-- A stable insertion step: `x` is placed in front of the first element `y`
of the (already sorted) list with `le x y`.  Elements equal to `x` under the
sort key therefore stay in front of `x` only if they occurred earlier in the
input list, which is exactly the stability contract of Python's `sorted`
and of numpy's stable ascending sorts. -/
def ordInsert {α : Type} (le : α → α → Bool) (x : α) : List α → List α
  | [] => [x]
  | y :: ys => if le x y then x :: y :: ys else y :: ordInsert le x ys

/-- Stable ascending sort by the boolean relation `le` (insertion sort). -/
def stableSort {α : Type} (le : α → α → Bool) : List α → List α
  | [] => []
  | x :: xs => ordInsert le x (stableSort le xs)

/-- Substring test on character lists; embeds Python's `needle in text`. -/
def containsSub (needle : List Char) : List Char → Bool
  | [] => needle.isEmpty
  | c :: rest => needle.isPrefixOf (c :: rest) || containsSub needle rest

/-- Fuelled worker for `replaceSub`; the fuel is the length of the text, which
is enough because every step consumes at least one character of the text.
Embeds Python's `str.replace` for a non-empty pattern (the source only ever
replaces the non-empty patterns `"曜日"` and `"，"`). -/
def replaceSubAux (pat rep : List Char) : Nat → List Char → List Char
  | _, [] => []
  | 0, l => l
  | fuel + 1, c :: rest =>
    if pat ≠ [] ∧ pat.isPrefixOf (c :: rest) then
      rep ++ replaceSubAux pat rep fuel (List.drop (pat.length - 1) rest)
    else
      c :: replaceSubAux pat rep fuel rest

/-- Replace every occurrence of `pat` by `rep`, like Python's `str.replace`. -/
def replaceSub (pat rep l : List Char) : List Char :=
  replaceSubAux pat rep l.length l

/-- Strip leading and trailing whitespace, like Python's `str.strip()`. -/
def stripWs (l : List Char) : List Char :=
  ((l.dropWhile Char.isWhitespace).reverse.dropWhile Char.isWhitespace).reverse

/-- Code-point lexicographic `≤` on character lists; embeds Python's string
order (used for the tie-breaking string comparisons done by pandas sorts). -/
def pyStrLe : List Char → List Char → Bool
  | [], _ => true
  | _ :: _, [] => false
  | c :: cs, d :: ds =>
    if c.toNat = d.toNat then pyStrLe cs ds else decide (c.toNat < d.toNat)

/-- `DAY_PRIORITY` dictionary (shift_scheduler.py lines 20-28): weekday →
allocation priority, Friday/Saturday highest, Sunday medium, weekdays low. -/
def DAY_PRIORITY : String → Option Nat
  | "月" => some 1
  | "火" => some 1
  | "水" => some 1
  | "木" => some 1
  | "金" => some 3
  | "土" => some 3
  | "日" => some 2
  | _ => none

/-- `DAY_PRIORITY.get(day, 1)` as used in `load_shift_requirements`. -/
def day_priority_get (day : String) : Nat := (DAY_PRIORITY day).getD 1

/-- `DAY_ORDER` dictionary (lines 30-38): Monday-first display order. -/
def DAY_ORDER : String → Option Nat
  | "月" => some 0
  | "火" => some 1
  | "水" => some 2
  | "木" => some 3
  | "金" => some 4
  | "土" => some 5
  | "日" => some 6
  | _ => none

/-- `df["day"].map(DAY_ORDER).fillna(99)` as done in `main`. -/
def day_order_fillna (day : String) : Nat := (DAY_ORDER day).getD 99

/-- `SLOT_ORDER` dictionary (lines 40-43). -/
def SLOT_ORDER : String → Option Nat
  | "LUNCH" => some 0
  | "DINNER" => some 1
  | _ => none

/-- `df["slot"].map(SLOT_ORDER).fillna(99)` as done in `main`. -/
def slot_order_fillna (slot : String) : Nat := (SLOT_ORDER slot).getD 99

/-- One roster row as read from the staff CSV, before normalisation.
`available_days` is `none` when the CSV cell is missing (`pd.isna`). -/
structure RawStaff where
  staff_id : String
  name : String
  role : String
  is_newbie : Nat
  can_lunch : Nat
  can_dinner : Nat
  hourly_wage : Int
  min_shifts : Nat
  max_shifts : Nat
  available_days : Option String
deriving DecidableEq, Repr

/-- One normalised roster row (the output of `load_staff_master`): the raw
fields plus the parsed `available_days_list` column. -/
structure Staff where
  staff_id : String
  name : String
  role : String
  is_newbie : Nat
  can_lunch : Nat
  can_dinner : Nat
  hourly_wage : Int
  min_shifts : Nat
  max_shifts : Nat
  available_days_list : List String
deriving DecidableEq, Repr

/-- One requirement row (the requirement CSV): weekday, block label,
start/end hour, required headcount and the two quota columns (the loader
fills the quota columns with the default 1 when absent from the CSV; the
typed model always carries them). -/
structure ShiftReq where
  day : String
  slot : String
  start_hour : Int
  end_hour : Int
  required_staff : Nat
  min_veterans : Nat
  min_kitchen : Nat
deriving DecidableEq, Repr

/-- One output row of the schedule table (`schedule_rows` dictionaries in
`schedule_shifts`): employee fields are `none` on a shortage row. -/
structure ScheduleRow where
  day : String
  slot : String
  start_hour : Int
  end_hour : Int
  staff_id : Option String
  name : Option String
  role : Option String
  is_newbie : Option Nat
  hourly_wage : Option Int
  slot_hours : Int
  labor_cost : Option Int
  note : String
deriving DecidableEq, Repr

/-- One row of the per-employee summary table (`summary_rows`). -/
structure SummaryRow where
  staff_id : String
  name : String
  assigned_shifts : Nat
  min_shifts : Nat
  max_shifts : Nat
deriving DecidableEq, Repr

/-- `parse_available_days` (lines 45-51): drop `"曜日"`, normalise full-width
commas, split on commas, strip the pieces and keep the non-empty ones.
A missing cell (`pd.isna(raw)`) yields the empty list. -/
def parse_available_days (raw : Option String) : List String :=
  match raw with
  | none => []
  | some r =>
    let text := replaceSub "曜日".data [] r.data
    let text2 := replaceSub "，".data ",".data text
    (((text2.splitOn ',').map stripWs).filter (fun cs => !cs.isEmpty)).map
      (fun cs => String.mk cs)

/-- The per-row work of `load_staff_master` (lines 54-61): the 0/1 flag
columns are normalised (the typed model already holds them as numbers) and
the parsed `available_days_list` column is added. -/
def normalizeStaff (r : RawStaff) : Staff :=
  { staff_id := r.staff_id
    name := r.name
    role := r.role
    is_newbie := r.is_newbie
    can_lunch := r.can_lunch
    can_dinner := r.can_dinner
    hourly_wage := r.hourly_wage
    min_shifts := r.min_shifts
    max_shifts := r.max_shifts
    available_days_list := parse_available_days r.available_days }

/-- `load_staff_master` (lines 54-61): one normalised row per input row, in
input order.  The source performs no validation whatsoever of
`hourly_wage`, `min_shifts` or `max_shifts` and never compares `min_shifts`
with `max_shifts`; the loader is total. -/
def load_staff_master (df : List RawStaff) : List Staff :=
  df.map normalizeStaff

/-- The `_priority` column of `load_shift_requirements` (lines 74-77):
`(DAY_PRIORITY.get(day, 1), 2 if slot == "DINNER" else 1)`. -/
def reqPriority (r : ShiftReq) : Nat × Nat :=
  (day_priority_get r.day, if r.slot = "DINNER" then 2 else 1)

/-- Ascending lexicographic comparison of `_priority` tuples. -/
def priLe (a b : ShiftReq) : Bool :=
  if (reqPriority a).1 = (reqPriority b).1 then
    decide ((reqPriority a).2 ≤ (reqPriority b).2)
  else
    decide ((reqPriority a).1 < (reqPriority b).1)

/-- `load_shift_requirements` (lines 64-81).  The source calls
`df.sort_values(by="_priority", ascending=False)`.  For a descending
single-key sort pandas' `nargsort` reverses the values and the index array
BEFORE the ascending argsort and reverses the resulting indexer AFTER it;
with the stable underlying sort taken at these row counts (numpy's
insertion-sort path) the two reversals cancel on ties, so the net effect is
a STABLE descending sort: rows ordered descending by the `_priority` tuple
and rows with equal tuples kept in original input order (pandas regression
test GH#6399).  The embedding is therefore a stable sort under the
descending comparison. -/
def load_shift_requirements (reqs : List ShiftReq) : List ShiftReq :=
  stableSort (fun a b => priLe b a) reqs

/-- `is_available_for_slot` (lines 84-92). -/
def is_available_for_slot (staff : Staff) (day slot : String) : Bool :=
  if day ∉ staff.available_days_list then false
  else if slot = "LUNCH" ∧ staff.can_lunch ≠ 1 then false
  else if slot = "DINNER" ∧ staff.can_dinner ≠ 1 then false
  else true

/-- `is_kitchen` (lines 95-98): the role label contains `"キッチン"`. -/
def is_kitchen (staff : Staff) : Bool :=
  containsSub "キッチン".data staff.role.data

/-- One selection loop of `select_staff_for_shift`.  All three loops of the
source (lines 154-195) share this shape: walk the pool in order, stop as
soon as the `stop` condition holds of the current selection (`break`), skip
employees whose id is already used (`continue`), otherwise append the
employee and mark the id used. -/
def pick_phase (stop : List Staff → Bool) :
    List Staff → List Staff × List String → List Staff × List String
  | [], st => st
  | s :: rest, st =>
    if stop st.1 then st
    else if s.staff_id ∈ st.2 then pick_phase stop rest st
    else pick_phase stop rest (st.1 ++ [s], s.staff_id :: st.2)

/-- `current_kitchen_count` (lines 168-169). -/
def current_kitchen_count (sel : List Staff) : Nat :=
  (sel.filter (fun x => is_kitchen x)).length

/-- `sort_by_assigned` (lines 145-146): stable ascending sort of a pool by
current assigned count (Python's `sorted` with that key). -/
def sort_by_assigned (assigned_counts : String → Nat) (pool : List Staff) :
    List Staff :=
  stableSort
    (fun a b => decide (assigned_counts a.staff_id ≤ assigned_counts b.staff_id))
    pool

/-- Body of `select_staff_for_shift` after the Friday/Saturday-evening
override of `min_veterans` (lines 126-197): filter the candidates, return
early when there are none, partition into the veteran/newcomer/kitchen
pools, sort each pool by assigned count, then run the four selection
loops. -/
def select_staff_core (staff_df : List Staff) (assigned_counts : String → Nat)
    (day slot : String) (required_staff min_veterans min_kitchen : Nat) :
    List Staff :=
  let candidates := staff_df.filter (fun s =>
    is_available_for_slot s day slot &&
      decide (assigned_counts s.staff_id < s.max_shifts))
  if candidates.isEmpty then []
  else
    let veterans := sort_by_assigned assigned_counts
      (candidates.filter (fun s => s.is_newbie == 0))
    let newbies := sort_by_assigned assigned_counts
      (candidates.filter (fun s => s.is_newbie == 1))
    let kitchens := sort_by_assigned assigned_counts
      (candidates.filter (fun s => is_kitchen s))
    let st1 := pick_phase (fun sel =>
      decide (required_staff ≤ sel.length) ||
        decide (min_veterans ≤ (sel.filter (fun x => x.is_newbie == 0)).length))
      veterans ([], [])
    let st2 := pick_phase (fun sel =>
      decide (required_staff ≤ sel.length) ||
        decide (min_kitchen ≤ current_kitchen_count sel))
      kitchens st1
    let st3 := pick_phase (fun sel => decide (required_staff ≤ sel.length))
      veterans st2
    let st4 := pick_phase (fun sel => decide (required_staff ≤ sel.length))
      newbies st3
    st4.1

/-- `select_staff_for_shift` (lines 101-197): on Friday/Saturday slots whose
start hour is at least 17 the `min_veterans` quota is forced up to at least
1 (lines 121-124), then the selection body runs. -/
def select_staff_for_shift (staff_df : List Staff)
    (assigned_counts : String → Nat) (day slot : String)
    (start_hour _end_hour : Int)
    (required_staff min_veterans min_kitchen : Nat) : List Staff :=
  let mv :=
    if (day = "金" ∨ day = "土") ∧ 17 ≤ start_hour then
      (if min_veterans < 1 then 1 else min_veterans)
    else min_veterans
  select_staff_core staff_df assigned_counts day slot required_staff mv
    min_kitchen

/-- `assigned_counts[sid] += 1` on the count dictionary. -/
def bump (c : String → Nat) (sid : String) : String → Nat :=
  fun k => if k = sid then c sid + 1 else c k

/-- The note string written on a shortage row. -/
def shortage_note : String := "スタッフ不足"

/-- The shortage row recorded when a slot gets no staff (lines 231-249). -/
def shortageRow (req : ShiftReq) : ScheduleRow :=
  { day := req.day
    slot := req.slot
    start_hour := req.start_hour
    end_hour := req.end_hour
    staff_id := none
    name := none
    role := none
    is_newbie := none
    hourly_wage := none
    slot_hours := req.end_hour - req.start_hour
    labor_cost := none
    note := shortage_note }

/-- The assignment row recorded for one selected employee (lines 251-271). -/
def assignedRow (req : ShiftReq) (s : Staff) : ScheduleRow :=
  { day := req.day
    slot := req.slot
    start_hour := req.start_hour
    end_hour := req.end_hour
    staff_id := some s.staff_id
    name := some s.name
    role := some s.role
    is_newbie := some s.is_newbie
    hourly_wage := some s.hourly_wage
    slot_hours := req.end_hour - req.start_hour
    labor_cost := some (s.hourly_wage * (req.end_hour - req.start_hour))
    note := "" }

/-- The body of the main loop of `schedule_shifts` (lines 208-271) for one
requirement row: run the allocator against the current counts; on an empty
selection append one shortage row and leave the counts alone, otherwise
append one assignment row per selected employee and bump each one's
count. -/
def schedule_step (staff_df : List Staff)
    (acc : List ScheduleRow × (String → Nat)) (req : ShiftReq) :
    List ScheduleRow × (String → Nat) :=
  let selected := select_staff_for_shift staff_df acc.2 req.day req.slot
    req.start_hour req.end_hour req.required_staff req.min_veterans
    req.min_kitchen
  if selected.isEmpty then
    (acc.1 ++ [shortageRow req], acc.2)
  else
    selected.foldl
      (fun acc2 s => (acc2.1 ++ [assignedRow req s], bump acc2.2 s.staff_id))
      acc

/-- One row of the per-employee summary (`summary_rows`, lines 276-288):
the employee's identity, its final assigned count read from the count
dictionary, and its configured min/max. -/
def mkSummaryRow (cnt : String → Nat) (s : Staff) : SummaryRow :=
  { staff_id := s.staff_id
    name := s.name
    assigned_shifts := cnt s.staff_id
    min_shifts := s.min_shifts
    max_shifts := s.max_shifts }

/-- `schedule_shifts` (lines 200-291): fold the requirement rows over
`schedule_step` starting from an empty row list and the all-zero count
dictionary (`{sid: 0 for sid in staff_df["staff_id"]}`: reads default to 0,
so the zero function is the same dictionary), then build the per-employee
summary and the total labour cost `schedule_df["labor_cost"].fillna(0).sum()`.
(When the requirement table is empty the source raises a `KeyError` at that
last line because the empty frame has no `labor_cost` column; the model
returns the empty sum 0 there.) -/
def schedule_shifts (staff_df : List Staff) (req_df : List ShiftReq) :
    List ScheduleRow × List SummaryRow × Int :=
  let res := req_df.foldl (schedule_step staff_df) ([], fun _ => 0)
  let summary := staff_df.map (mkSummaryRow res.2)
  let total := (res.1.map (fun r => r.labor_cost.getD 0)).sum
  (res.1, summary, total)

/-- `≤` on the optional `staff_id` column: pandas sorts missing values
(`None`) last (`na_position="last"`). -/
def optIdLe : Option String → Option String → Bool
  | none, none => true
  | none, some _ => false
  | some _, none => true
  | some a, some b => pyStrLe a.data b.data

/-- The ascending lexicographic row comparison used by the display sort of
the schedule table (`main`, lines 344-350):
`by=["day_order", "slot_order", "start_hour", "end_hour", "staff_id"]`.
A multi-key pandas `sort_values` is a stable lexicographic sort
(`np.lexsort`). -/
def schedRowLe (a b : ScheduleRow) : Bool :=
  if day_order_fillna a.day = day_order_fillna b.day then
    if slot_order_fillna a.slot = slot_order_fillna b.slot then
      if a.start_hour = b.start_hour then
        if a.end_hour = b.end_hour then optIdLe a.staff_id b.staff_id
        else decide (a.end_hour ≤ b.end_hour)
      else decide (a.start_hour ≤ b.start_hour)
    else decide (slot_order_fillna a.slot ≤ slot_order_fillna b.slot)
  else decide (day_order_fillna a.day ≤ day_order_fillna b.day)

/-- The grouping key of the human view: `groupby(["day", "slot",
"start_hour", "end_hour"])` (lines 360-362). -/
structure GroupKey where
  day : String
  slot : String
  start_hour : Int
  end_hour : Int
deriving DecidableEq, Repr

/-- One row of the human-readable view (`human_rows`, lines 387-395). -/
structure ViewRow where
  day : String
  slot : String
  time : String
  staff_list : String
  detail : String
deriving DecidableEq, Repr

/-- The group key of a schedule row. -/
def rowKey (r : ScheduleRow) : GroupKey :=
  ⟨r.day, r.slot, r.start_hour, r.end_hour⟩

/-- Ascending comparison of group keys, as pandas `groupby(sort=True)` orders
the groups: tuple order, strings by code point, hours numerically. -/
def keyLe (a b : GroupKey) : Bool :=
  if a.day = b.day then
    if a.slot = b.slot then
      if a.start_hour = b.start_hour then decide (a.end_hour ≤ b.end_hour)
      else decide (a.start_hour ≤ b.start_hour)
    else pyStrLe a.slot.data b.slot.data
  else pyStrLe a.day.data b.day.data

/-- The `time` string of a group: `f"{int(start_hour)}-{int(end_hour)}"`
(line 386; the keys always carry a number, so the `pd.notna` guard of the
source is always taken). -/
def timeStr (k : GroupKey) : String :=
  toString k.start_hour ++ "-" ++ toString k.end_hour

/-- How the view prints an optional string cell: Python interpolates `None`
as `"None"` (only reachable on rows with a present `staff_id` but a missing
`name`, which the engine never produces). -/
def pyFmtOptStr : Option String → String
  | some s => s
  | none => "None"

/-- Build the human view row of one group (lines 363-395).  `rows` is the
whole (display-sorted) schedule table; the group consists of the rows with
key `k`, in table order.  A group whose rows all lack a `staff_id` becomes
a shortage line; otherwise the shortage rows of the group are dropped
(`dropna(subset=["staff_id"])`) and the remaining employees are rendered as
`name(role,tag)` joined by `" / "`, with the headcount / kitchen / newcomer
tallies in the `detail` column. -/
def build_view_row (rows : List ScheduleRow) (k : GroupKey) : ViewRow :=
  let group := rows.filter (fun r => decide (rowKey r = k))
  if group.all (fun r => r.staff_id.isNone) then
    { day := k.day, slot := k.slot, time := timeStr k, staff_list := ""
      detail := shortage_note }
  else
    let assigned := group.filter (fun r => r.staff_id.isSome)
    let staffs := assigned.map (fun r =>
      pyFmtOptStr r.name ++ "(" ++ (r.role.getD "") ++ "," ++
        (if r.is_newbie.getD 0 = 1 then "新人" else "ベテラン") ++ ")")
    let kitchen_count :=
      (assigned.filter (fun r => containsSub "キッチン".data (r.role.getD "").data)).length
    let newbie_count := (assigned.filter (fun r => r.is_newbie.getD 0 == 1)).length
    { day := k.day, slot := k.slot, time := timeStr k
      staff_list := String.intercalate " / " staffs
      detail := "人数" ++ toString staffs.length ++ " / キッチン" ++
        toString kitchen_count ++ " / 新人" ++ toString newbie_count }

/-- The distinct group keys of the schedule table, in the ascending key
order in which `groupby(sort=True)` yields the groups. -/
def group_keys (rows : List ScheduleRow) : List GroupKey :=
  stableSort keyLe (rows.map rowKey).dedup

/-- Ascending comparison for the final display sort of the human view
(lines 399-405): `by=["day_order", "slot_order", "time"]` — the third key is
the `time` STRING, compared lexicographically. -/
def viewLe (a b : ViewRow) : Bool :=
  if day_order_fillna a.day = day_order_fillna b.day then
    if slot_order_fillna a.slot = slot_order_fillna b.slot then
      pyStrLe a.time.data b.time.data
    else decide (slot_order_fillna a.slot ≤ slot_order_fillna b.slot)
  else decide (day_order_fillna a.day ≤ day_order_fillna b.day)

/-- The human-view pipeline of `main` (lines 343-405), keeping each view row
paired with the group key it was built from (the source carries the same
data inside the row's `day`/`slot`/`time` columns; the key is carried
alongside so that theorems can speak about the group's numeric start hour):
display-sort the schedule table, build one row per group in ascending key
order, then stable-sort the rows by `(day_order, slot_order, time)`. -/
def human_view_keyed (rows : List ScheduleRow) :
    List (GroupKey × ViewRow) :=
  let sortedRows := stableSort schedRowLe rows
  let keyed := (group_keys sortedRows).map
    (fun k => (k, build_view_row sortedRows k))
  stableSort (fun a b => viewLe a.2 b.2) keyed

/-- The human-readable view itself: the rows of `human_df` in final order. -/
def human_view (rows : List ScheduleRow) : List ViewRow :=
  (human_view_keyed rows).map (fun p => p.2)

/-- Spec §4.5 / §8, the cost contract stated in the specification's words:
each assignment row contributes hourly wage × (end hour − start hour), and a
shortage row (no wage) contributes zero. -/
def spec_row_cost (r : ScheduleRow) : Int :=
  match r.hourly_wage with
  | some w => w * (r.end_hour - r.start_hour)
  | none => 0

/-- Spec §4.3 step 1, in the specification's words: on a Friday or Saturday
slot with start hour ≥ 17 the effective minimum-veteran quota is raised to
at least 1, otherwise the configured value is kept. -/
def spec_effective_min_veterans (day : String) (start_hour : Int)
    (min_veterans : Nat) : Nat :=
  if (day = "金" ∨ day = "土") ∧ 17 ≤ start_hour then max min_veterans 1
  else min_veterans

/-- Spec §4.3 step 2, in the specification's words: a candidate must have
the slot's weekday in its availability set, the capability flag matching the
block label, and an assigned count strictly below its cap. -/
def spec_candidate (assigned_counts : String → Nat) (day slot : String)
    (s : Staff) : Prop :=
  day ∈ s.available_days_list ∧
    (slot = "LUNCH" → s.can_lunch = 1) ∧
    (slot = "DINNER" → s.can_dinner = 1) ∧
    assigned_counts s.staff_id < s.max_shifts

instance (assigned_counts : String → Nat) (day slot : String) (s : Staff) :
    Decidable (spec_candidate assigned_counts day slot s) := by
  unfold spec_candidate; infer_instance

/-- Spec §4.3 step 5, one greedy pass in the specification's words: walk the
(already sorted) pool, stopping once the required headcount is reached or
the pass's quota condition `quotaDone` holds of the selection, skipping
employees already selected (the used-id set), otherwise selecting. -/
def spec_take (headcount : Nat) (quotaDone : List Staff → Bool)
    (pool : List Staff) (sel : List Staff) (used : List String) :
    List Staff × List String :=
  match pool with
  | [] => (sel, used)
  | s :: rest =>
    if headcount ≤ sel.length ∨ quotaDone sel = true then (sel, used)
    else if s.staff_id ∈ used then spec_take headcount quotaDone rest sel used
    else spec_take headcount quotaDone rest (sel ++ [s]) (s.staff_id :: used)

/-- Spec §4.3, the whole Slot Allocator contract in the specification's
words: apply the evening override, filter candidates, partition into the
veteran / newcomer / kitchen pools, stable-sort each pool ascending by
current assigned count, then run the four greedy passes
(a) veterans up to the effective minimum-veteran quota,
(b) kitchen-role employees not yet selected up to the minimum-kitchen quota,
(c) remaining veterans least-utilised first,
(d) newcomers least-utilised first,
each pass also stopping at the required headcount. -/
def spec_select (staff_df : List Staff) (assigned_counts : String → Nat)
    (day slot : String) (start_hour : Int)
    (required_staff min_veterans min_kitchen : Nat) : List Staff :=
  let mv := spec_effective_min_veterans day start_hour min_veterans
  let cands := staff_df.filter
    (fun s => decide (spec_candidate assigned_counts day slot s))
  let vets := sort_by_assigned assigned_counts
    (cands.filter (fun s => decide (s.is_newbie = 0)))
  let news := sort_by_assigned assigned_counts
    (cands.filter (fun s => decide (s.is_newbie = 1)))
  let kits := sort_by_assigned assigned_counts
    (cands.filter (fun s => is_kitchen s))
  let a := spec_take required_staff
    (fun sel => decide (mv ≤ (sel.filter (fun x => decide (x.is_newbie = 0))).length))
    vets [] []
  let b := spec_take required_staff
    (fun sel => decide (min_kitchen ≤ (sel.filter (fun x => is_kitchen x)).length))
    kits a.1 a.2
  let c := spec_take required_staff (fun _ => false) vets b.1 b.2
  let d := spec_take required_staff (fun _ => false) news c.1 c.2
  d.1

/-- The ordering asserted by the human-view claim, in the claim's words:
weekday in Monday-first canonical order, then block with lunch before
dinner, then START HOUR ascending. -/
def claimedViewKeyLe (a b : GroupKey) : Prop :=
  day_order_fillna a.day < day_order_fillna b.day ∨
    (day_order_fillna a.day = day_order_fillna b.day ∧
      (slot_order_fillna a.slot < slot_order_fillna b.slot ∨
        (slot_order_fillna a.slot = slot_order_fillna b.slot ∧
          a.start_hour ≤ b.start_hour)))

instance (a b : GroupKey) : Decidable (claimedViewKeyLe a b) := by
  unfold claimedViewKeyLe; infer_instance

/-- Concrete fixture: newcomer A of the §8 scenario (max-shifts 1). -/
def fxNewbieA : Staff :=
  { staff_id := "A", name := "A", role := "ホール", is_newbie := 1
    can_lunch := 1, can_dinner := 1, hourly_wage := 1000, min_shifts := 0
    max_shifts := 1, available_days_list := ["土"] }

/-- Concrete fixture: veteran B of the §8 scenario (max-shifts 5). -/
def fxVetB : Staff :=
  { staff_id := "B", name := "B", role := "ホール", is_newbie := 0
    can_lunch := 1, can_dinner := 1, hourly_wage := 1200, min_shifts := 0
    max_shifts := 5, available_days_list := ["金", "土"] }

/-- Concrete fixture: assigned counts giving A fewer shifts than B. -/
def fxCountsA0B4 : String → Nat := fun sid => if sid = "A" then 0 else 4

/-- Concrete fixture: veteran earning 1000, available Monday lunch. -/
def fxVet1000 : Staff :=
  { staff_id := "V1", name := "V1", role := "ホール", is_newbie := 0
    can_lunch := 1, can_dinner := 1, hourly_wage := 1000, min_shifts := 0
    max_shifts := 5, available_days_list := ["月"] }

/-- Concrete fixture: veteran earning 1200, available Monday lunch. -/
def fxVet1200 : Staff :=
  { staff_id := "V2", name := "V2", role := "ホール", is_newbie := 0
    can_lunch := 1, can_dinner := 1, hourly_wage := 1200, min_shifts := 0
    max_shifts := 5, available_days_list := ["月"] }

/-- Concrete fixture: the §8 cost scenario's single 4-hour slot with
headcount 2. -/
def fxReq4h : ShiftReq :=
  { day := "月", slot := "LUNCH", start_hour := 9, end_hour := 13
    required_staff := 2, min_veterans := 1, min_kitchen := 1 }

/-- Concrete fixture: a Monday lunch requirement row (priority (1, 1)). -/
def fxC4r1 : ShiftReq :=
  { day := "月", slot := "LUNCH", start_hour := 11, end_hour := 14
    required_staff := 1, min_veterans := 1, min_kitchen := 1 }

/-- Concrete fixture: a Tuesday lunch requirement row, same priority (1, 1)
as `fxC4r1`. -/
def fxC4r2 : ShiftReq :=
  { day := "火", slot := "LUNCH", start_hour := 11, end_hour := 14
    required_staff := 1, min_veterans := 1, min_kitchen := 1 }

/-- Concrete fixture: a Saturday evening slot with required headcount 0
while a veteran candidate is available. -/
def fxReqSat0 : ShiftReq :=
  { day := "土", slot := "DINNER", start_hour := 18, end_hour := 22
    required_staff := 0, min_veterans := 1, min_kitchen := 1 }

/-- Concrete fixture: the §8 scenario slot (Saturday 18-23, headcount 1,
min-veteran 1). -/
def fxReqSat18 : ShiftReq :=
  { day := "土", slot := "DINNER", start_hour := 18, end_hour := 23
    required_staff := 1, min_veterans := 1, min_kitchen := 1 }

/-- Concrete fixture: a roster row whose min-shifts exceeds its max-shifts
(the validation case of §7: the claim says the loader must reject it). -/
def fxRawBad : RawStaff :=
  { staff_id := "X", name := "X", role := "ホール", is_newbie := 0
    can_lunch := 1, can_dinner := 1, hourly_wage := 1000, min_shifts := 5
    max_shifts := 2, available_days := some "月,火" }

/-- Concrete fixture: a roster row whose available-days cell is missing. -/
def fxRawNoDays : RawStaff :=
  { staff_id := "N", name := "N", role := "ホール", is_newbie := 0
    can_lunch := 1, can_dinner := 1, hourly_wage := 1000, min_shifts := 0
    max_shifts := 5, available_days := none }

/-- Concrete fixture: an ordinary roster row available on Monday. -/
def fxRawOk : RawStaff :=
  { staff_id := "C", name := "C", role := "ホール", is_newbie := 0
    can_lunch := 1, can_dinner := 1, hourly_wage := 1000, min_shifts := 0
    max_shifts := 5, available_days := some "月" }

/-- Concrete fixture: Monday lunch requirement row starting at hour 9. -/
def fxC9r9 : ShiftReq :=
  { day := "月", slot := "LUNCH", start_hour := 9, end_hour := 13
    required_staff := 1, min_veterans := 1, min_kitchen := 1 }

/-- Concrete fixture: Monday lunch requirement row starting at hour 17. -/
def fxC9r17 : ShiftReq :=
  { day := "月", slot := "LUNCH", start_hour := 17, end_hour := 19
    required_staff := 1, min_veterans := 1, min_kitchen := 1 }

theorem mem_ordInsert {α : Type} (le : α → α → Bool) (x : α) (l : List α)
    (a : α) : a ∈ ordInsert le x l ↔ a = x ∨ a ∈ l := by
  induction l with
  | nil => simp [ordInsert]
  | cons y ys ih =>
    by_cases h : le x y = true
    · simp [ordInsert, h]
    · simp only [ordInsert, h]
      simp [ih]
      tauto

theorem perm_ordInsert {α : Type} (le : α → α → Bool) (x : α) (l : List α) :
    (ordInsert le x l).Perm (x :: l) := by
  induction l with
  | nil => simp [ordInsert]
  | cons y ys ih =>
    by_cases h : le x y = true
    · simp [ordInsert, h]
    · simp only [ordInsert, h, if_neg, Bool.false_eq_true, not_false_iff]
      exact (ih.cons y).trans (List.Perm.swap x y ys)

theorem perm_stableSort {α : Type} (le : α → α → Bool) (l : List α) :
    (stableSort le l).Perm l := by
  induction l with
  | nil => simp [stableSort]
  | cons x xs ih =>
    exact (perm_ordInsert le x (stableSort le xs)).trans (ih.cons x)

theorem mem_stableSort {α : Type} (le : α → α → Bool) (l : List α) (a : α) :
    a ∈ stableSort le l ↔ a ∈ l :=
  (perm_stableSort le l).mem_iff

theorem pairwise_ordInsert {α : Type} (le : α → α → Bool)
    (htot : ∀ a b, le a b = true ∨ le b a = true)
    (htrans : ∀ a b c, le a b = true → le b c = true → le a c = true)
    (x : α) (l : List α) (h : l.Pairwise (fun a b => le a b = true)) :
    (ordInsert le x l).Pairwise (fun a b => le a b = true) := by
  induction l with
  | nil => simp [ordInsert]
  | cons y ys ih =>
    rcases List.pairwise_cons.mp h with ⟨hy, hys⟩
    by_cases hxy : le x y = true
    · simp only [ordInsert, hxy, if_pos]
      refine List.pairwise_cons.mpr ⟨?_, h⟩
      intro z hz
      rcases List.mem_cons.mp hz with rfl | hz
      · exact hxy
      · exact htrans _ _ _ hxy (hy z hz)
    · have hyx : le y x = true := (htot x y).resolve_left hxy
      simp only [ordInsert, hxy, if_neg, Bool.false_eq_true, not_false_iff]
      refine List.pairwise_cons.mpr ⟨?_, ih hys⟩
      intro z hz
      rcases (mem_ordInsert le x ys z).mp hz with rfl | hz
      · exact hyx
      · exact hy z hz

theorem pairwise_stableSort {α : Type} (le : α → α → Bool)
    (htot : ∀ a b, le a b = true ∨ le b a = true)
    (htrans : ∀ a b c, le a b = true → le b c = true → le a c = true)
    (l : List α) :
    (stableSort le l).Pairwise (fun a b => le a b = true) := by
  induction l with
  | nil => simp [stableSort]
  | cons x xs ih => exact pairwise_ordInsert le htot htrans x (stableSort le xs) ih

theorem pick_phase_stop (stop : List Staff → Bool) (pool : List Staff)
    (st : List Staff × List String) (h : stop st.1 = true) :
    pick_phase stop pool st = st := by
  cases pool with
  | nil => rfl
  | cons s rest => simp [pick_phase, h]

theorem pick_phase_shape (stop : List Staff → Bool) (pool : List Staff)
    (st : List Staff × List String) :
    ∃ ex, (pick_phase stop pool st).1 = st.1 ++ ex ∧ ∀ x ∈ ex, x ∈ pool := by
  induction pool generalizing st with
  | nil => exact ⟨[], by simp [pick_phase], by simp⟩
  | cons s rest ih =>
    by_cases h1 : stop st.1 = true
    · exact ⟨[], by simp [pick_phase, h1], by simp⟩
    · by_cases h2 : s.staff_id ∈ st.2
      · obtain ⟨ex, hex, hmem⟩ := ih st
        exact ⟨ex, by simpa [pick_phase, h1, h2] using hex,
          fun x hx => List.mem_cons_of_mem s (hmem x hx)⟩
      · obtain ⟨ex, hex, hmem⟩ := ih (st.1 ++ [s], s.staff_id :: st.2)
        refine ⟨s :: ex, ?_, ?_⟩
        · simpa [pick_phase, h1, h2] using hex
        · intro x hx
          rcases List.mem_cons.mp hx with rfl | hx
          · exact List.mem_cons_self _ _
          · exact List.mem_cons_of_mem s (hmem x hx)

theorem pick_phase_inv (P : Staff → Prop) (stop : List Staff → Bool)
    (pool : List Staff) (st : List Staff × List String)
    (hpool : ∀ x ∈ pool, P x)
    (h1 : ∀ x ∈ st.1, P x)
    (h2 : (st.1.map Staff.staff_id).Nodup)
    (h3 : ∀ x ∈ st.1, x.staff_id ∈ st.2) :
    (∀ x ∈ (pick_phase stop pool st).1, P x) ∧
      ((pick_phase stop pool st).1.map Staff.staff_id).Nodup ∧
      (∀ x ∈ (pick_phase stop pool st).1,
        x.staff_id ∈ (pick_phase stop pool st).2) := by
  induction pool generalizing st with
  | nil => exact ⟨h1, h2, h3⟩
  | cons s rest ih =>
    by_cases hstop : stop st.1 = true
    · simp only [pick_phase, hstop, if_pos]
      exact ⟨h1, h2, h3⟩
    · by_cases hused : s.staff_id ∈ st.2
      · simp only [pick_phase, hstop, hused, if_neg, if_pos,
          Bool.false_eq_true, not_false_iff]
        exact ih st (fun x hx => hpool x (List.mem_cons_of_mem s hx)) h1 h2 h3
      · simp only [pick_phase, hstop, hused, Bool.false_eq_true, not_false_iff,
          if_neg, if_pos]
        refine ih (st.1 ++ [s], s.staff_id :: st.2)
          (fun x hx => hpool x (List.mem_cons_of_mem s hx)) ?_ ?_ ?_
        · intro x hx
          rcases List.mem_append.mp hx with hx | hx
          · exact h1 x hx
          · rcases List.mem_singleton.mp hx with rfl
            exact hpool _ (List.mem_cons_self _ _)
        · have hid : ∀ x ∈ st.1, ¬x.staff_id = s.staff_id := by
            intro x hx heq
            exact hused (heq ▸ h3 x hx)
          simpa [List.nodup_append] using ⟨h2, hid⟩
        · intro x hx
          rcases List.mem_append.mp hx with hx | hx
          · exact List.mem_cons_of_mem _ (h3 x hx)
          · rcases List.mem_singleton.mp hx with rfl
            exact List.mem_cons_self _ _

theorem mem_sort_by_assigned (counts : String → Nat) (pool : List Staff)
    (x : Staff) : x ∈ sort_by_assigned counts pool ↔ x ∈ pool :=
  mem_stableSort _ pool x

theorem phases_inv (P : Staff → Prop)
    (stop1 stop2 stop3 stop4 : List Staff → Bool)
    (vets kits news : List Staff)
    (hv : ∀ x ∈ vets, P x) (hk : ∀ x ∈ kits, P x) (hn : ∀ x ∈ news, P x) :
    (∀ x ∈ (pick_phase stop4 news (pick_phase stop3 vets (pick_phase stop2 kits
        (pick_phase stop1 vets ([], []))))).1, P x) ∧
      ((pick_phase stop4 news (pick_phase stop3 vets (pick_phase stop2 kits
        (pick_phase stop1 vets ([], []))))).1.map Staff.staff_id).Nodup := by
  have i1 := pick_phase_inv P stop1 vets ([], []) hv (by simp) (by simp) (by simp)
  have i2 := pick_phase_inv P stop2 kits _ hk i1.1 i1.2.1 i1.2.2
  have i3 := pick_phase_inv P stop3 vets _ hv i2.1 i2.2.1 i2.2.2
  have i4 := pick_phase_inv P stop4 news _ hn i3.1 i3.2.1 i3.2.2
  exact ⟨i4.1, i4.2.1⟩

theorem select_core_sound (staff_df : List Staff) (counts : String → Nat)
    (day slot : String) (rq mv mk : Nat) :
    (∀ x ∈ select_staff_core staff_df counts day slot rq mv mk,
        x ∈ staff_df ∧ is_available_for_slot x day slot = true ∧
          counts x.staff_id < x.max_shifts) ∧
      ((select_staff_core staff_df counts day slot rq mv mk).map
        Staff.staff_id).Nodup := by
  unfold select_staff_core
  set cands := staff_df.filter (fun s =>
    is_available_for_slot s day slot &&
      decide (counts s.staff_id < s.max_shifts)) with hcands
  have hc : ∀ x ∈ cands, x ∈ staff_df ∧
      is_available_for_slot x day slot = true ∧
      counts x.staff_id < x.max_shifts := by
    intro x hx
    rw [hcands] at hx
    simp only [List.mem_filter, Bool.and_eq_true, decide_eq_true_eq] at hx
    exact ⟨hx.1, hx.2.1, hx.2.2⟩
  by_cases hempty : cands.isEmpty = true
  · simp [hempty]
  · simp only [hempty, if_neg, Bool.false_eq_true, not_false_iff]
    refine phases_inv (fun x => x ∈ staff_df ∧
      is_available_for_slot x day slot = true ∧
      counts x.staff_id < x.max_shifts) _ _ _ _ _ _ _
      ?_ ?_ ?_
    all_goals
      intro x hx
      rw [mem_sort_by_assigned] at hx
      exact hc x (List.mem_filter.mp hx).1

theorem select_sound (staff_df : List Staff) (counts : String → Nat)
    (day slot : String) (sh eh : Int) (rq mv mk : Nat) :
    (∀ x ∈ select_staff_for_shift staff_df counts day slot sh eh rq mv mk,
        x ∈ staff_df ∧ is_available_for_slot x day slot = true ∧
          counts x.staff_id < x.max_shifts) ∧
      ((select_staff_for_shift staff_df counts day slot sh eh rq mv mk).map
        Staff.staff_id).Nodup := by
  unfold select_staff_for_shift
  exact select_core_sound staff_df counts day slot rq _ mk

theorem bump_apply (c : String → Nat) (sid k : String) :
    bump c sid k = if k = sid then c sid + 1 else c k := rfl

theorem foldl_bump_count (sel : List Staff) (c : String → Nat) (k : String) :
    (sel.foldl (fun acc2 s => bump acc2 s.staff_id) c) k =
      c k + sel.countP (fun s => s.staff_id == k) := by
  induction sel generalizing c with
  | nil => simp
  | cons s rest ih =>
    simp only [List.foldl_cons, List.countP_cons, ih]
    by_cases h : s.staff_id = k
    · simp [bump, h, Nat.add_comm, Nat.add_assoc, Nat.add_left_comm]
    · have h2 : ¬(k = s.staff_id) := fun hk => h hk.symm
      simp [bump, h, h2]

theorem countP_le_one_of_nodup_map (sel : List Staff) (k : String)
    (h : (sel.map Staff.staff_id).Nodup) :
    sel.countP (fun s => s.staff_id == k) ≤ 1 := by
  induction sel with
  | nil => simp
  | cons s rest ih =>
    simp only [List.map_cons, List.nodup_cons] at h
    simp only [List.countP_cons]
    by_cases hk : s.staff_id == k
    · have hzero : rest.countP (fun s => s.staff_id == k) = 0 := by
        rw [List.countP_eq_zero]
        intro x hx hxk
        apply h.1
        have h1 : x.staff_id = k := by simpa using hxk
        have h2 : s.staff_id = k := by simpa using hk
        rw [← h1, h2] at *
        exact List.mem_map_of_mem Staff.staff_id hx
      simp [hk, hzero]
    · simp [hk, ih h.2]

theorem foldl_assign_fst (req : ShiftReq) (sel : List Staff)
    (acc : List ScheduleRow × (String → Nat)) :
    (sel.foldl
      (fun acc2 s => (acc2.1 ++ [assignedRow req s], bump acc2.2 s.staff_id))
      acc).1 = acc.1 ++ sel.map (assignedRow req) := by
  induction sel generalizing acc with
  | nil => simp
  | cons s rest ih => simp [ih]

theorem foldl_assign_snd (req : ShiftReq) (sel : List Staff)
    (acc : List ScheduleRow × (String → Nat)) :
    (sel.foldl
      (fun acc2 s => (acc2.1 ++ [assignedRow req s], bump acc2.2 s.staff_id))
      acc).2 = sel.foldl (fun c s => bump c s.staff_id) acc.2 := by
  induction sel generalizing acc with
  | nil => simp
  | cons s rest ih => simp [ih]

theorem schedule_step_fst (staff_df : List Staff)
    (acc : List ScheduleRow × (String → Nat)) (req : ShiftReq) :
    (schedule_step staff_df acc req).1 = acc.1 ++
      (if (select_staff_for_shift staff_df acc.2 req.day req.slot
            req.start_hour req.end_hour req.required_staff req.min_veterans
            req.min_kitchen).isEmpty
        then [shortageRow req]
        else (select_staff_for_shift staff_df acc.2 req.day req.slot
            req.start_hour req.end_hour req.required_staff req.min_veterans
            req.min_kitchen).map (assignedRow req)) := by
  unfold schedule_step
  by_cases h : (select_staff_for_shift staff_df acc.2 req.day req.slot
      req.start_hour req.end_hour req.required_staff req.min_veterans
      req.min_kitchen).isEmpty
  · simp [h]
  · simp [h, foldl_assign_fst]

theorem schedule_step_snd (staff_df : List Staff)
    (acc : List ScheduleRow × (String → Nat)) (req : ShiftReq) :
    (schedule_step staff_df acc req).2 =
      (select_staff_for_shift staff_df acc.2 req.day req.slot req.start_hour
        req.end_hour req.required_staff req.min_veterans
        req.min_kitchen).foldl (fun c s => bump c s.staff_id) acc.2 := by
  unfold schedule_step
  by_cases h : (select_staff_for_shift staff_df acc.2 req.day req.slot
      req.start_hour req.end_hour req.required_staff req.min_veterans
      req.min_kitchen).isEmpty
  · rw [List.isEmpty_iff] at h
    simp [List.isEmpty_iff.mpr h, h]
  · simp [h, foldl_assign_snd]

theorem schedule_step_cap (staff_df : List Staff)
    (hids : (staff_df.map Staff.staff_id).Nodup)
    (acc : List ScheduleRow × (String → Nat)) (req : ShiftReq)
    (h : ∀ s ∈ staff_df, acc.2 s.staff_id ≤ s.max_shifts) :
    ∀ s ∈ staff_df,
      (schedule_step staff_df acc req).2 s.staff_id ≤ s.max_shifts := by
  intro s hs
  rw [schedule_step_snd, foldl_bump_count]
  set sel := select_staff_for_shift staff_df acc.2 req.day req.slot
    req.start_hour req.end_hour req.required_staff req.min_veterans
    req.min_kitchen with hsel
  have hsound := select_sound staff_df acc.2 req.day req.slot req.start_hour
    req.end_hour req.required_staff req.min_veterans req.min_kitchen
  rw [← hsel] at hsound
  by_cases hzero : sel.countP (fun x => x.staff_id == s.staff_id) = 0
  · rw [hzero]
    simpa using h s hs
  · have hpos : 0 < sel.countP (fun x => x.staff_id == s.staff_id) :=
      Nat.pos_of_ne_zero hzero
    obtain ⟨x, hxsel, hxid⟩ := List.countP_pos_iff.mp hpos
    have hxid' : x.staff_id = s.staff_id := by simpa using hxid
    have hx := hsound.1 x hxsel
    have hxs : x = s := List.inj_on_of_nodup_map hids hx.1 hs hxid'
    have hlt : acc.2 s.staff_id < s.max_shifts := by
      rw [← hxs]
      exact hx.2.2
    have hone : sel.countP (fun x => x.staff_id == s.staff_id) ≤ 1 :=
      countP_le_one_of_nodup_map sel s.staff_id hsound.2
    omega

theorem schedule_fold_cap (staff_df : List Staff)
    (hids : (staff_df.map Staff.staff_id).Nodup) (reqs : List ShiftReq)
    (acc : List ScheduleRow × (String → Nat))
    (h : ∀ s ∈ staff_df, acc.2 s.staff_id ≤ s.max_shifts) :
    ∀ s ∈ staff_df,
      (reqs.foldl (schedule_step staff_df) acc).2 s.staff_id ≤
        s.max_shifts := by
  induction reqs generalizing acc with
  | nil => exact h
  | cons req rest ih =>
    exact ih (schedule_step staff_df acc req)
      (schedule_step_cap staff_df hids acc req h)

theorem available_mem_days (x : Staff) (day slot : String)
    (h : is_available_for_slot x day slot = true) :
    day ∈ x.available_days_list := by
  unfold is_available_for_slot at h
  by_cases hd : day ∈ x.available_days_list
  · exact hd
  · simp [hd] at h

theorem schedule_shifts_fst (staff_df : List Staff) (req_df : List ShiftReq) :
    (schedule_shifts staff_df req_df).1 =
      (req_df.foldl (schedule_step staff_df) ([], fun _ => 0)).1 := rfl

theorem schedule_shifts_summary (staff_df : List Staff)
    (req_df : List ShiftReq) :
    (schedule_shifts staff_df req_df).2.1 = staff_df.map (mkSummaryRow
      (req_df.foldl (schedule_step staff_df) ([], fun _ => 0)).2) := rfl

theorem schedule_shifts_total (staff_df : List Staff)
    (req_df : List ShiftReq) :
    (schedule_shifts staff_df req_df).2.2 =
      ((req_df.foldl (schedule_step staff_df) ([], fun _ => 0)).1.map
        (fun r => r.labor_cost.getD 0)).sum := rfl

/-- C1: for every roster with pairwise-distinct employee ids (the roster
well-formedness invariant of §3: "identifier (unique)") and every
requirement table, every row of the per-employee summary produced by the
Schedule Engine has its final assigned count at most the employee's
configured max-shift cap.  The proof maintains the bound at every step of
the run: the Slot Allocator only returns candidates whose current count is
strictly below their cap and never repeats an id within one slot, and the
engine increments exactly the selected ids. -/
theorem C1_max_shift_cap (staff_df : List Staff) (req_df : List ShiftReq)
    (hids : (staff_df.map Staff.staff_id).Nodup) :
    ∀ row ∈ (schedule_shifts staff_df req_df).2.1,
      row.assigned_shifts ≤ row.max_shifts := by
  intro row hrow
  rw [schedule_shifts_summary] at hrow
  obtain ⟨s, hs, rfl⟩ := List.mem_map.mp hrow
  exact schedule_fold_cap staff_df hids req_df ([], fun _ => 0)
    (fun s _ => Nat.zero_le _) s hs

/-- Witness for C1 at a concrete roster and requirement table. -/
theorem C1_max_shift_cap_witness :
    (([fxNewbieA, fxVetB].map Staff.staff_id).Nodup) ∧
      ∀ row ∈ (schedule_shifts [fxNewbieA, fxVetB]
          [fxReqSat18, fxReqSat18, fxReqSat18]).2.1,
        row.assigned_shifts ≤ row.max_shifts :=
  ⟨by decide,
    C1_max_shift_cap [fxNewbieA, fxVetB] [fxReqSat18, fxReqSat18, fxReqSat18]
      (by decide)⟩

theorem shortage_row_cost (req : ShiftReq) :
    (shortageRow req).labor_cost.getD 0 = spec_row_cost (shortageRow req) :=
  rfl

theorem assigned_row_cost (req : ShiftReq) (s : Staff) :
    (assignedRow req s).labor_cost.getD 0 =
      spec_row_cost (assignedRow req s) := rfl

theorem schedule_fold_cost (staff_df : List Staff) (reqs : List ShiftReq)
    (acc : List ScheduleRow × (String → Nat))
    (h : ∀ r ∈ acc.1, r.labor_cost.getD 0 = spec_row_cost r) :
    ∀ r ∈ (reqs.foldl (schedule_step staff_df) acc).1,
      r.labor_cost.getD 0 = spec_row_cost r := by
  induction reqs generalizing acc with
  | nil => exact h
  | cons req rest ih =>
    refine ih (schedule_step staff_df acc req) ?_
    intro r hr
    rw [schedule_step_fst] at hr
    rcases List.mem_append.mp hr with hr | hr
    · exact h r hr
    · by_cases hem : (select_staff_for_shift staff_df acc.2 req.day req.slot
          req.start_hour req.end_hour req.required_staff req.min_veterans
          req.min_kitchen).isEmpty
      · rw [if_pos hem] at hr
        rcases List.mem_singleton.mp hr with rfl
        exact shortage_row_cost req
      · rw [if_neg hem] at hr
        obtain ⟨s, _, rfl⟩ := List.mem_map.mp hr
        exact assigned_row_cost req s

/-- C7: the total labour cost returned by the Schedule Engine equals the sum
over all rows of the specification's per-row contribution — hourly wage ×
(end hour − start hour) on an assignment row, zero on a shortage row — and
in the §8 cost scenario (two employees with wages 1000 and 1200, one 4-hour
slot with required headcount 2) the total is 8800. -/
theorem C7_total_cost :
    (∀ (staff_df : List Staff) (req_df : List ShiftReq),
        (schedule_shifts staff_df req_df).2.2 =
          ((schedule_shifts staff_df req_df).1.map spec_row_cost).sum) ∧
      (schedule_shifts [fxVet1000, fxVet1200] [fxReq4h]).2.2 = 8800 := by
  constructor
  · intro staff_df req_df
    rw [schedule_shifts_total, schedule_shifts_fst]
    exact congrArg List.sum (List.map_congr_left
      (schedule_fold_cost staff_df req_df ([], fun _ => 0) (by simp)))
  · decide

/-- C8: determinism — two runs of the Schedule Engine on equal roster and
requirement inputs return equal schedule tables, summary tables and total
labour costs.  The engine is a pure function of its two inputs: the
iteration order, the stable sorts and the count dictionary are all
determined by the input lists. -/
theorem C8_deterministic (staff1 staff2 : List Staff)
    (reqs1 reqs2 : List ShiftReq) (hstaff : staff1 = staff2)
    (hreqs : reqs1 = reqs2) :
    schedule_shifts staff1 reqs1 = schedule_shifts staff2 reqs2 := by
  rw [hstaff, hreqs]

/-- Witness for C8 at a concrete pair of equal inputs. -/
theorem C8_deterministic_witness :
    schedule_shifts [fxVet1000, fxVet1200] [fxReq4h] =
      schedule_shifts [fxVet1000, fxVet1200] [fxReq4h] :=
  C8_deterministic [fxVet1000, fxVet1200] [fxVet1000, fxVet1200] [fxReq4h]
    [fxReq4h] rfl rfl

theorem select_core_zero (staff_df : List Staff) (counts : String → Nat)
    (day slot : String) (mv mk : Nat) :
    select_staff_core staff_df counts day slot 0 mv mk = [] := by
  simp only [select_staff_core]
  split
  · rfl
  · rw [pick_phase_stop _ _ _ (by simp), pick_phase_stop _ _ _ (by simp),
      pick_phase_stop _ _ _ (by simp), pick_phase_stop _ _ _ (by simp)]

theorem select_zero_headcount (staff_df : List Staff) (counts : String → Nat)
    (day slot : String) (sh eh : Int) (mv mk : Nat) :
    select_staff_for_shift staff_df counts day slot sh eh 0 mv mk = [] := by
  unfold select_staff_for_shift
  exact select_core_zero staff_df counts day slot _ mk

/-- C5 (amended): a slot with required headcount 0 always gets the empty
selection from the Slot Allocator, and the Schedule Engine then records the
slot as a shortage row (it emits a shortage row for every slot whose
selection is empty — including zero-headcount slots), leaving the counts
unchanged. -/
theorem C5_zero_headcount (staff_df : List Staff) :
    (∀ (counts : String → Nat) (day slot : String) (sh eh : Int) (mv mk : Nat),
        select_staff_for_shift staff_df counts day slot sh eh 0 mv mk = []) ∧
      (∀ (acc : List ScheduleRow × (String → Nat)) (req : ShiftReq),
        req.required_staff = 0 →
          schedule_step staff_df acc req = (acc.1 ++ [shortageRow req], acc.2)) := by
  constructor
  · intro counts day slot sh eh mv mk
    exact select_zero_headcount staff_df counts day slot sh eh mv mk
  · intro acc req h
    have hsel : select_staff_for_shift staff_df acc.2 req.day req.slot
        req.start_hour req.end_hour req.required_staff req.min_veterans
        req.min_kitchen = [] := by
      rw [h]
      exact select_zero_headcount staff_df acc.2 req.day req.slot
        req.start_hour req.end_hour req.min_veterans req.min_kitchen
    simp [schedule_step, hsel]

/-- Witness for C5 at a concrete zero-headcount slot. -/
theorem C5_zero_headcount_witness :
    schedule_step [fxVetB] ([], fun _ => 0) fxReqSat0 =
      (([] : List ScheduleRow) ++ [shortageRow fxReqSat0], fun _ => (0 : Nat)) :=
  (C5_zero_headcount [fxVetB]).2 ([], fun _ => 0) fxReqSat0 rfl

/-- Counterexample to C5 as stated: on a zero-headcount Saturday-evening
slot, with a veteran available and under cap, the engine nevertheless
emits a shortage row (the claim says no shortage row is emitted). -/
theorem C5_zero_headcount_cex :
    fxReqSat0.required_staff = 0 ∧
      (∃ x ∈ [fxVetB], is_available_for_slot x fxReqSat0.day fxReqSat0.slot
        = true) ∧
      (schedule_shifts [fxVetB] [fxReqSat0]).1 = [shortageRow fxReqSat0] ∧
      (shortageRow fxReqSat0).note = shortage_note := by
  refine ⟨rfl, ⟨fxVetB, by decide, by decide⟩, by decide, rfl⟩

/-- C6: evaluating the Staff Registry loader at a roster row whose
min-shifts (5) exceeds its max-shifts (2).  The loader returns normally —
the invalid row is loaded verbatim, no data error is raised — and the
Schedule Engine then happily produces a schedule from it, contradicting the
claimed fail-fast validation. -/
theorem C6_loader_accepts_min_gt_max :
    load_staff_master [fxRawBad] =
      [{ staff_id := "X", name := "X", role := "ホール", is_newbie := 0
         can_lunch := 1, can_dinner := 1, hourly_wage := 1000
         min_shifts := 5, max_shifts := 2
         available_days_list := ["月", "火"] }] ∧
      fxRawBad.max_shifts < fxRawBad.min_shifts ∧
      (schedule_shifts (load_staff_master [fxRawBad]) [fxC4r1]).1 ≠ [] := by
  refine ⟨by decide, by decide, by decide⟩

theorem priLe_total (a b : ShiftReq) : priLe a b = true ∨ priLe b a = true := by
  unfold priLe
  split_ifs with h1 h2 h3 <;> simp only [decide_eq_true_eq] <;> omega

theorem priLe_trans (a b c : ShiftReq) (hab : priLe a b = true)
    (hbc : priLe b c = true) : priLe a c = true := by
  unfold priLe at hab hbc ⊢
  split_ifs at hab hbc ⊢ with h1 h2 h3 <;>
    simp only [decide_eq_true_eq] at hab hbc ⊢ <;> omega

theorem filter_ordInsert_pos {α : Type} (le : α → α → Bool) (q : α → Bool)
    (x : α) (l : List α) (hx : q x = true)
    (h : ∀ y, q y = true → le x y = true) :
    (ordInsert le x l).filter q = x :: l.filter q := by
  induction l with
  | nil => simp [ordInsert, hx]
  | cons y ys ih =>
    by_cases hxy : le x y = true
    · simp [ordInsert, hxy, List.filter_cons, hx]
    · have hqy : ¬(q y = true) := fun hq => hxy (h y hq)
      simp [ordInsert, hxy, List.filter_cons, hqy, ih]

theorem filter_ordInsert_neg {α : Type} (le : α → α → Bool) (q : α → Bool)
    (x : α) (l : List α) (hx : q x = false) :
    (ordInsert le x l).filter q = l.filter q := by
  induction l with
  | nil => simp [ordInsert, hx]
  | cons y ys ih =>
    by_cases hxy : le x y = true
    · simp [ordInsert, hxy, List.filter_cons, hx]
    · simp [ordInsert, hxy, List.filter_cons, ih]

theorem stableSort_filter_class {α : Type} (le : α → α → Bool)
    (q : α → Bool) (hq : ∀ x y, q x = true → q y = true → le x y = true)
    (l : List α) : (stableSort le l).filter q = l.filter q := by
  induction l with
  | nil => rfl
  | cons x xs ih =>
    by_cases hx : q x = true
    · simp only [stableSort]
      rw [filter_ordInsert_pos le q x _ hx (fun y hy => hq x y hx hy), ih,
        List.filter_cons, if_pos hx]
    · have hx' : q x = false := by
        revert hx
        cases q x <;> simp
      simp only [stableSort]
      rw [filter_ordInsert_neg le q x _ hx', ih, List.filter_cons, if_neg hx]

/-- C4: the requirement loader orders rows descending by the composite
`(weekday priority, block priority)` key, returns a permutation of its
input, and the sort is STABLE: for every value of the composite key, the
subsequence of output rows carrying that key equals the input's
subsequence with that key, so rows with equal keys retain their original
input order.  (pandas `sort_values(ascending=False)` reverses the values
and the index array before its ascending argsort and reverses the
resulting indexer after it, so with the stable underlying sort the
descending order preserves ties — pandas regression test GH#6399.) -/
theorem C4_priority_order (reqs : List ShiftReq) :
    (load_shift_requirements reqs).Pairwise (fun a b => priLe b a = true) ∧
      (load_shift_requirements reqs).Perm reqs ∧
      ∀ p : Nat × Nat,
        (load_shift_requirements reqs).filter
            (fun r => decide (reqPriority r = p)) =
          reqs.filter (fun r => decide (reqPriority r = p)) := by
  refine ⟨?_, ?_, ?_⟩
  · unfold load_shift_requirements
    exact pairwise_stableSort (fun a b => priLe b a)
      (fun a b => priLe_total b a)
      (fun a b c h1 h2 => priLe_trans c b a h2 h1) reqs
  · unfold load_shift_requirements
    exact perm_stableSort _ reqs
  · intro p
    unfold load_shift_requirements
    apply stableSort_filter_class
    intro x y hx hy
    simp only [decide_eq_true_eq] at hx hy
    unfold priLe
    rw [hx, hy]
    simp

theorem phases_first_mem (stop1 stop2 stop3 stop4 : List Staff → Bool)
    (w : Staff) (ws kits news : List Staff) (h1 : stop1 [] = false) :
    w ∈ (pick_phase stop4 news (pick_phase stop3 (w :: ws) (pick_phase stop2
      kits (pick_phase stop1 (w :: ws) ([], []))))).1 := by
  have hstep : pick_phase stop1 (w :: ws) ([], []) =
      pick_phase stop1 ws ([w], [w.staff_id]) := by
    simp [pick_phase, h1]
  rw [hstep]
  obtain ⟨ex1, hex1, -⟩ := pick_phase_shape stop1 ws ([w], [w.staff_id])
  obtain ⟨ex2, hex2, -⟩ := pick_phase_shape stop2 kits
    (pick_phase stop1 ws ([w], [w.staff_id]))
  obtain ⟨ex3, hex3, -⟩ := pick_phase_shape stop3 (w :: ws)
    (pick_phase stop2 kits (pick_phase stop1 ws ([w], [w.staff_id])))
  obtain ⟨ex4, hex4, -⟩ := pick_phase_shape stop4 news
    (pick_phase stop3 (w :: ws) (pick_phase stop2 kits
      (pick_phase stop1 ws ([w], [w.staff_id]))))
  rw [hex4, hex3, hex2, hex1]
  simp

theorem select_core_veteran (staff_df : List Staff) (counts : String → Nat)
    (day slot : String) (rq mv mk : Nat) (hrq : 1 ≤ rq) (hmv : 1 ≤ mv)
    (hvet : ∃ v ∈ staff_df, is_available_for_slot v day slot = true ∧
      counts v.staff_id < v.max_shifts ∧ v.is_newbie = 0) :
    ∃ x ∈ select_staff_core staff_df counts day slot rq mv mk,
      x.is_newbie = 0 := by
  obtain ⟨v, hvmem, hvav, hvlt, hvnew⟩ := hvet
  simp only [select_staff_core]
  have hvc : v ∈ staff_df.filter (fun s =>
      is_available_for_slot s day slot &&
        decide (counts s.staff_id < s.max_shifts)) := by
    rw [List.mem_filter]
    exact ⟨hvmem, by simp [hvav, hvlt]⟩
  have hne : ¬((staff_df.filter (fun s =>
      is_available_for_slot s day slot &&
        decide (counts s.staff_id < s.max_shifts))).isEmpty = true) := by
    rw [List.isEmpty_iff]
    intro hnil
    rw [hnil] at hvc
    cases hvc
  rw [if_neg hne]
  have hvvet : v ∈ sort_by_assigned counts ((staff_df.filter (fun s =>
      is_available_for_slot s day slot &&
        decide (counts s.staff_id < s.max_shifts))).filter
        (fun s => s.is_newbie == 0)) := by
    rw [mem_sort_by_assigned, List.mem_filter]
    exact ⟨hvc, by simp [hvnew]⟩
  obtain ⟨w, ws, hws⟩ := List.exists_cons_of_ne_nil
    (List.ne_nil_of_mem hvvet)
  have hallvet : ∀ x ∈ sort_by_assigned counts ((staff_df.filter (fun s =>
      is_available_for_slot s day slot &&
        decide (counts s.staff_id < s.max_shifts))).filter
        (fun s => s.is_newbie == 0)), x.is_newbie = 0 := by
    intro x hx
    rw [mem_sort_by_assigned, List.mem_filter] at hx
    simpa using hx.2
  have hwvet : w.is_newbie = 0 := by
    apply hallvet
    rw [hws]
    exact List.mem_cons_self _ _
  rw [hws]
  refine ⟨w, ?_, hwvet⟩
  apply phases_first_mem
  have h1 : ¬(rq ≤ 0) := by omega
  have h2 : ¬(mv ≤ ([] : List Staff).length) := by simp; omega
  simp [h1]
  omega

/-- C2 (amended with "required headcount ≥ 1"): on a Friday or Saturday
slot with start hour ≥ 17 the Slot Allocator behaves exactly as if the
minimum-veteran quota were raised to `max min_veterans 1` (the override of
lines 121-124), and — provided the slot requires at least one person — if
any veteran candidate is available and under its cap then the returned
assignment list contains a veteran (`is_newbie = 0`). -/
theorem C2_fri_sat_veteran (staff_df : List Staff) (counts : String → Nat)
    (day slot : String) (sh eh : Int) (rq mv mk : Nat)
    (hday : day = "金" ∨ day = "土") (hsh : 17 ≤ sh) (hrq : 1 ≤ rq)
    (hvet : ∃ v ∈ staff_df, is_available_for_slot v day slot = true ∧
      counts v.staff_id < v.max_shifts ∧ v.is_newbie = 0) :
    (select_staff_for_shift staff_df counts day slot sh eh rq mv mk =
        select_staff_core staff_df counts day slot rq (max mv 1) mk) ∧
      ∃ x ∈ select_staff_for_shift staff_df counts day slot sh eh rq mv mk,
        x.is_newbie = 0 := by
  have hmv : (if (day = "金" ∨ day = "土") ∧ 17 ≤ sh then
      (if mv < 1 then 1 else mv) else mv) = max mv 1 := by
    rw [if_pos ⟨hday, hsh⟩]
    by_cases h : mv < 1
    · rw [if_pos h]; omega
    · rw [if_neg h]; omega
  have hsel : select_staff_for_shift staff_df counts day slot sh eh rq mv mk =
      select_staff_core staff_df counts day slot rq (max mv 1) mk := by
    simp only [select_staff_for_shift]
    rw [hmv]
  refine ⟨hsel, ?_⟩
  rw [hsel]
  exact select_core_veteran staff_df counts day slot rq (max mv 1) mk hrq
    (by omega) hvet

/-- Witness for C2 at a concrete Friday evening slot with a configured
quota of 0 and one available veteran. -/
theorem C2_fri_sat_veteran_witness :
    (select_staff_for_shift [fxVetB] (fun _ => 0) "金" "DINNER" 18 22 1 0 1 =
        select_staff_core [fxVetB] (fun _ => 0) "金" "DINNER" 1 (max 0 1) 1) ∧
      ∃ x ∈ select_staff_for_shift [fxVetB] (fun _ => 0) "金" "DINNER" 18 22
        1 0 1, x.is_newbie = 0 :=
  C2_fri_sat_veteran [fxVetB] (fun _ => 0) "金" "DINNER" 18 22 1 0 1
    (Or.inl rfl) (by decide) (by decide)
    ⟨fxVetB, by decide, by decide, by decide, by decide⟩

/-- Counterexample to C2 as stated: a Saturday slot with start hour 18 and
required headcount 0 — a veteran candidate is available and under cap, yet
the Slot Allocator's assignment list is empty, so no veteran appears in
it. -/
theorem C2_headcount_zero_cex :
    ("土" = "金" ∨ "土" = "土") ∧ (17 : Int) ≤ 18 ∧
      (∃ v ∈ [fxVetB], is_available_for_slot v "土" "DINNER" = true ∧
        (fun _ => 0 : String → Nat) v.staff_id < v.max_shifts ∧
        v.is_newbie = 0) ∧
      select_staff_for_shift [fxVetB] (fun _ => 0) "土" "DINNER" 18 22 0 1 1
        = [] := by
  refine ⟨Or.inr rfl, by decide, ⟨fxVetB, by decide, by decide, by decide,
    by decide⟩, by decide⟩

theorem select_no_id (staff_df : List Staff) (counts : String → Nat)
    (day slot : String) (sh eh : Int) (rq mv mk : Nat) (sid : String)
    (hsid : ∀ x ∈ staff_df, x.staff_id = sid → x.available_days_list = []) :
    ∀ x ∈ select_staff_for_shift staff_df counts day slot sh eh rq mv mk,
      x.staff_id ≠ sid := by
  intro x hx heq
  have hs := (select_sound staff_df counts day slot sh eh rq mv mk).1 x hx
  have hdays := hsid x hs.1 heq
  have hmem := available_mem_days x day slot hs.2.1
  rw [hdays] at hmem
  cases hmem

theorem schedule_fold_no_id (staff_df : List Staff) (sid : String)
    (hsid : ∀ x ∈ staff_df, x.staff_id = sid → x.available_days_list = [])
    (reqs : List ShiftReq) (acc : List ScheduleRow × (String → Nat))
    (hrows : ∀ r ∈ acc.1, r.staff_id ≠ some sid) :
    (∀ r ∈ (reqs.foldl (schedule_step staff_df) acc).1,
        r.staff_id ≠ some sid) ∧
      (reqs.foldl (schedule_step staff_df) acc).2 sid = acc.2 sid := by
  induction reqs generalizing acc with
  | nil => exact ⟨hrows, rfl⟩
  | cons req rest ih =>
    have hsel : ∀ x ∈ select_staff_for_shift staff_df acc.2 req.day req.slot
        req.start_hour req.end_hour req.required_staff req.min_veterans
        req.min_kitchen, x.staff_id ≠ sid :=
      select_no_id staff_df acc.2 req.day req.slot req.start_hour req.end_hour
        req.required_staff req.min_veterans req.min_kitchen sid hsid
    have hstep_rows : ∀ r ∈ (schedule_step staff_df acc req).1,
        r.staff_id ≠ some sid := by
      intro r hr
      rw [schedule_step_fst] at hr
      rcases List.mem_append.mp hr with hr | hr
      · exact hrows r hr
      · by_cases hem : (select_staff_for_shift staff_df acc.2 req.day req.slot
            req.start_hour req.end_hour req.required_staff req.min_veterans
            req.min_kitchen).isEmpty
        · rw [if_pos hem] at hr
          rcases List.mem_singleton.mp hr with rfl
          intro h
          cases h
        · rw [if_neg hem] at hr
          obtain ⟨s, hssel, rfl⟩ := List.mem_map.mp hr
          intro h
          have hsome : s.staff_id = sid := by
            simpa [assignedRow] using h
          exact hsel s hssel hsome
    have hstep_cnt : (schedule_step staff_df acc req).2 sid = acc.2 sid := by
      rw [schedule_step_snd, foldl_bump_count]
      have hzero : (select_staff_for_shift staff_df acc.2 req.day req.slot
          req.start_hour req.end_hour req.required_staff req.min_veterans
          req.min_kitchen).countP (fun s => s.staff_id == sid) = 0 := by
        rw [List.countP_eq_zero]
        intro x hx
        simpa using hsel x hx
      rw [hzero]
      omega
    have hrest := ih (schedule_step staff_df acc req) hstep_rows
    exact ⟨hrest.1, hrest.2.trans hstep_cnt⟩

theorem filter_beq_of_nodup {α β : Type} [DecidableEq β] (f : α → β)
    (l : List α) (a : α) (hnodup : (l.map f).Nodup) (ha : a ∈ l) :
    l.filter (fun x => f x == f a) = [a] := by
  induction l with
  | nil => cases ha
  | cons x xs ih =>
    rw [List.map_cons, List.nodup_cons] at hnodup
    rcases List.mem_cons.mp ha with heq | ha'
    · subst heq
      have hrest : xs.filter (fun y => f y == f a) = [] := by
        rw [List.filter_eq_nil_iff]
        intro y hy
        simp only [beq_iff_eq]
        intro he
        apply hnodup.1
        rw [← he]
        exact List.mem_map_of_mem f hy
      simp [List.filter_cons, hrest]
    · have hne : ¬((f x == f a) = true) := by
        simp only [beq_iff_eq]
        intro he
        apply hnodup.1
        rw [he]
        exact List.mem_map_of_mem f ha'
      rw [List.filter_cons, if_neg hne]
      exact ih hnodup.2 ha'

theorem map_summary_filter (cnt : String → Nat) (staff : List Staff)
    (s0 : Staff) (hnodup : (staff.map Staff.staff_id).Nodup)
    (h : s0 ∈ staff) :
    (staff.map (mkSummaryRow cnt)).filter
      (fun row => row.staff_id == s0.staff_id) = [mkSummaryRow cnt s0] := by
  rw [List.filter_map]
  have hpred : ((fun row => row.staff_id == s0.staff_id) ∘ mkSummaryRow cnt)
      = fun x => Staff.staff_id x == Staff.staff_id s0 := rfl
  rw [hpred, filter_beq_of_nodup Staff.staff_id staff s0 hnodup h]
  rfl

/-- C10: an employee whose available-days cell parses to the empty weekday
list — in particular a missing (NaN) cell, for which the parser returns
`[]` — is never selected for any slot: no schedule row carries its id, and
the per-employee summary still contains exactly one row for it, with
assigned count 0 and its configured min/max (assuming the roster's unique-id
invariant). -/
theorem C10_no_days_never_assigned (raw_df : List RawStaff)
    (req_df : List ShiftReq) (r : RawStaff) (hmem : r ∈ raw_df)
    (hnodup : (raw_df.map RawStaff.staff_id).Nodup)
    (hdays : r.available_days = none ∨
      parse_available_days r.available_days = []) :
    (∀ row ∈ (schedule_shifts (load_staff_master raw_df) req_df).1,
        row.staff_id ≠ some r.staff_id) ∧
      (schedule_shifts (load_staff_master raw_df) req_df).2.1.filter
          (fun row => row.staff_id == r.staff_id) =
        [{ staff_id := r.staff_id, name := r.name, assigned_shifts := 0,
           min_shifts := r.min_shifts, max_shifts := r.max_shifts }] := by
  have hparse : parse_available_days r.available_days = [] := by
    rcases hdays with h | h
    · rw [h]
      rfl
    · exact h
  have hids : (load_staff_master raw_df).map Staff.staff_id =
      raw_df.map RawStaff.staff_id := by
    unfold load_staff_master
    rw [List.map_map]
    exact List.map_congr_left (fun a _ => rfl)
  have hsid : ∀ x ∈ load_staff_master raw_df, x.staff_id = r.staff_id →
      x.available_days_list = [] := by
    intro x hx heq
    obtain ⟨r', hr', rfl⟩ := List.mem_map.mp hx
    have hrr : r' = r := List.inj_on_of_nodup_map hnodup hr' hmem heq
    rw [hrr]
    exact hparse
  have hfold := schedule_fold_no_id (load_staff_master raw_df) r.staff_id
    hsid req_df ([], fun _ => 0) (by intro row hrow; cases hrow)
  constructor
  · intro row hrow
    rw [schedule_shifts_fst] at hrow
    exact hfold.1 row hrow
  · rw [schedule_shifts_summary]
    have hnodup' : ((load_staff_master raw_df).map Staff.staff_id).Nodup := by
      rw [hids]; exact hnodup
    have hmem' : normalizeStaff r ∈ load_staff_master raw_df :=
      List.mem_map_of_mem normalizeStaff hmem
    have hfil := map_summary_filter
      (req_df.foldl (schedule_step (load_staff_master raw_df))
        ([], fun _ => 0)).2
      (load_staff_master raw_df) (normalizeStaff r) hnodup' hmem'
    have hid0 : (normalizeStaff r).staff_id = r.staff_id := rfl
    rw [hid0] at hfil
    rw [hfil]
    have hcnt : (req_df.foldl (schedule_step (load_staff_master raw_df))
        ([], fun _ => 0)).2 r.staff_id = 0 := hfold.2
    simp [mkSummaryRow, normalizeStaff, hcnt]

/-- Witness for C10: a two-person roster whose second row has a missing
available-days cell; the summary keeps one zero-assignment row for it and
the schedule never names it. -/
theorem C10_no_days_never_assigned_witness :
    (∀ row ∈ (schedule_shifts (load_staff_master [fxRawOk, fxRawNoDays])
        [fxC9r9]).1, row.staff_id ≠ some fxRawNoDays.staff_id) ∧
      (schedule_shifts (load_staff_master [fxRawOk, fxRawNoDays])
          [fxC9r9]).2.1.filter
          (fun row => row.staff_id == fxRawNoDays.staff_id) =
        [{ staff_id := fxRawNoDays.staff_id, name := fxRawNoDays.name,
           assigned_shifts := 0, min_shifts := fxRawNoDays.min_shifts,
           max_shifts := fxRawNoDays.max_shifts }] :=
  C10_no_days_never_assigned [fxRawOk, fxRawNoDays] [fxC9r9] fxRawNoDays
    (by decide) (by decide) (Or.inl rfl)

theorem pyStrLe_total (a b : List Char) :
    pyStrLe a b = true ∨ pyStrLe b a = true := by
  induction a generalizing b with
  | nil => left; rfl
  | cons c cs ih =>
    cases b with
    | nil => right; rfl
    | cons d ds =>
      by_cases h : c.toNat = d.toNat
      · have h' : d.toNat = c.toNat := h.symm
        rcases ih ds with hl | hr
        · left; simp [pyStrLe, h, hl]
        · right; simp [pyStrLe, h', hr]
      · by_cases hlt : c.toNat < d.toNat
        · left; simp [pyStrLe, h, hlt]
        · right
          have h' : ¬(d.toNat = c.toNat) := fun e => h e.symm
          have hgt : d.toNat < c.toNat := by omega
          simp [pyStrLe, h', hgt]

theorem pyStrLe_trans (a b c : List Char) (hab : pyStrLe a b = true)
    (hbc : pyStrLe b c = true) : pyStrLe a c = true := by
  induction a generalizing b c with
  | nil => rfl
  | cons x xs ih =>
    cases b with
    | nil => simp [pyStrLe] at hab
    | cons y ys =>
      cases c with
      | nil => simp [pyStrLe] at hbc
      | cons z zs =>
        simp only [pyStrLe] at hab hbc ⊢
        by_cases h1 : x.toNat = y.toNat
        · rw [if_pos h1] at hab
          by_cases h2 : y.toNat = z.toNat
          · rw [if_pos h2] at hbc
            rw [if_pos (h1.trans h2)]
            exact ih ys zs hab hbc
          · rw [if_neg h2] at hbc
            simp only [decide_eq_true_eq] at hbc
            have h3 : ¬(x.toNat = z.toNat) := by omega
            rw [if_neg h3]
            simp only [decide_eq_true_eq]
            omega
        · rw [if_neg h1] at hab
          simp only [decide_eq_true_eq] at hab
          by_cases h2 : y.toNat = z.toNat
          · have h3 : ¬(x.toNat = z.toNat) := by omega
            rw [if_neg h3]
            simp only [decide_eq_true_eq]
            omega
          · rw [if_neg h2] at hbc
            simp only [decide_eq_true_eq] at hbc
            have h3 : ¬(x.toNat = z.toNat) := by omega
            rw [if_neg h3]
            simp only [decide_eq_true_eq]
            omega

theorem viewLe_total (a b : ViewRow) :
    viewLe a b = true ∨ viewLe b a = true := by
  unfold viewLe
  by_cases h1 : day_order_fillna a.day = day_order_fillna b.day
  · by_cases h2 : slot_order_fillna a.slot = slot_order_fillna b.slot
    · rw [if_pos h1, if_pos h1.symm, if_pos h2, if_pos h2.symm]
      exact pyStrLe_total _ _
    · rw [if_pos h1, if_pos h1.symm, if_neg h2,
        if_neg (fun e => h2 e.symm)]
      simp only [decide_eq_true_eq]
      omega
  · rw [if_neg h1, if_neg (fun e => h1 e.symm)]
    simp only [decide_eq_true_eq]
    omega

theorem viewLe_trans (a b c : ViewRow) (hab : viewLe a b = true)
    (hbc : viewLe b c = true) : viewLe a c = true := by
  unfold viewLe at hab hbc ⊢
  by_cases d1 : day_order_fillna a.day = day_order_fillna b.day
  · rw [if_pos d1] at hab
    by_cases d2 : day_order_fillna b.day = day_order_fillna c.day
    · rw [if_pos d2] at hbc
      rw [if_pos (d1.trans d2)]
      by_cases s1 : slot_order_fillna a.slot = slot_order_fillna b.slot
      · rw [if_pos s1] at hab
        by_cases s2 : slot_order_fillna b.slot = slot_order_fillna c.slot
        · rw [if_pos s2] at hbc
          rw [if_pos (s1.trans s2)]
          exact pyStrLe_trans _ _ _ hab hbc
        · rw [if_neg s2] at hbc
          simp only [decide_eq_true_eq] at hbc
          have s3 : ¬(slot_order_fillna a.slot = slot_order_fillna c.slot) :=
            by omega
          rw [if_neg s3]
          simp only [decide_eq_true_eq]
          omega
      · rw [if_neg s1] at hab
        simp only [decide_eq_true_eq] at hab
        by_cases s2 : slot_order_fillna b.slot = slot_order_fillna c.slot
        · have s3 : ¬(slot_order_fillna a.slot = slot_order_fillna c.slot) :=
            by omega
          rw [if_neg s3]
          simp only [decide_eq_true_eq]
          omega
        · rw [if_neg s2] at hbc
          simp only [decide_eq_true_eq] at hbc
          have s3 : ¬(slot_order_fillna a.slot = slot_order_fillna c.slot) :=
            by omega
          rw [if_neg s3]
          simp only [decide_eq_true_eq]
          omega
    · rw [if_neg d2] at hbc
      simp only [decide_eq_true_eq] at hbc
      have d3 : ¬(day_order_fillna a.day = day_order_fillna c.day) := by omega
      rw [if_neg d3]
      simp only [decide_eq_true_eq]
      omega
  · rw [if_neg d1] at hab
    simp only [decide_eq_true_eq] at hab
    by_cases d2 : day_order_fillna b.day = day_order_fillna c.day
    · have d3 : ¬(day_order_fillna a.day = day_order_fillna c.day) := by omega
      rw [if_neg d3]
      simp only [decide_eq_true_eq]
      omega
    · rw [if_neg d2] at hbc
      simp only [decide_eq_true_eq] at hbc
      have d3 : ¬(day_order_fillna a.day = day_order_fillna c.day) := by omega
      rw [if_neg d3]
      simp only [decide_eq_true_eq]
      omega

/-- C9 (amended): the human view has exactly one row per distinct group key
(weekday, block, start hour, end hour), and its rows come out sorted by
`viewLe` — weekday in Monday-first order, then block with lunch before
dinner, then the TIME STRING (`"start-end"`) in code-point lexicographic
order, which is the third sort key the source actually uses (it coincides
with ascending start hour only when the rendered strings compare like the
numbers). -/
theorem C9_view_order (rows : List ScheduleRow) :
    ((human_view_keyed rows).map Prod.fst).Nodup ∧
      (human_view_keyed rows).Pairwise (fun a b => viewLe a.2 b.2 = true) ∧
      human_view rows = (human_view_keyed rows).map Prod.snd := by
  refine ⟨?_, ?_, rfl⟩
  · unfold human_view_keyed
    have hperm : ((stableSort (fun a b => viewLe a.2 b.2)
        ((group_keys (stableSort schedRowLe rows)).map
          (fun k => (k, build_view_row (stableSort schedRowLe rows) k)))).map
        Prod.fst).Perm
        (((group_keys (stableSort schedRowLe rows)).map
          (fun k => (k, build_view_row (stableSort schedRowLe rows) k))).map
          Prod.fst) :=
      (perm_stableSort _ _).map Prod.fst
    rw [hperm.nodup_iff]
    rw [List.map_map]
    have hid : ((group_keys (stableSort schedRowLe rows)).map
        (Prod.fst ∘ (fun k => (k, build_view_row (stableSort schedRowLe rows)
          k)))) = group_keys (stableSort schedRowLe rows) := by
      rw [show (Prod.fst ∘ (fun k => (k, build_view_row
        (stableSort schedRowLe rows) k))) = id from rfl]
      exact List.map_id _
    rw [hid]
    unfold group_keys
    rw [(perm_stableSort keyLe _).nodup_iff]
    exact List.nodup_dedup _
  · unfold human_view_keyed
    exact pairwise_stableSort
      (fun (a b : GroupKey × ViewRow) => viewLe a.2 b.2)
      (fun a b => viewLe_total a.2 b.2)
      (fun a b c hab hbc => viewLe_trans a.2 b.2 c.2 hab hbc) _

/-- Counterexample to C9 as stated: two Monday lunch groups with start
hours 9 and 17 — the view orders the 17-o'clock row first because the time
strings compare "17-19" < "9-13", so the rows are NOT ordered by start hour
ascending within equal weekday and block. -/
theorem C9_start_hour_order_cex :
    ((human_view_keyed (schedule_shifts (load_staff_master [fxRawOk])
        [fxC9r9, fxC9r17]).1).map (fun p => p.1.start_hour)) = [17, 9] ∧
      ¬ (((human_view_keyed (schedule_shifts (load_staff_master [fxRawOk])
        [fxC9r9, fxC9r17]).1).map Prod.fst).Pairwise claimedViewKeyLe) := by
  constructor
  · decide
  · decide

theorem spec_take_eq_pick (rq : Nat) (q : List Staff → Bool)
    (pool : List Staff) (sel : List Staff) (used : List String) :
    spec_take rq q pool sel used =
      pick_phase (fun s => decide (rq ≤ s.length) || q s) pool (sel, used) := by
  induction pool generalizing sel used with
  | nil => rfl
  | cons s rest ih =>
    simp only [spec_take, pick_phase]
    have hb : (decide (rq ≤ sel.length) || q sel) = true ↔
        (rq ≤ sel.length ∨ q sel = true) := by
      simp
    by_cases hstop : rq ≤ sel.length ∨ q sel = true
    · rw [if_pos hstop, if_pos (hb.mpr hstop)]
    · rw [if_neg hstop, if_neg (fun h => hstop (hb.mp h))]
      by_cases hmem : s.staff_id ∈ used
      · rw [if_pos hmem, if_pos hmem, ih]
      · rw [if_neg hmem, if_neg hmem, ih]

theorem candidate_equiv (counts : String → Nat) (day slot : String)
    (s : Staff) :
    (is_available_for_slot s day slot &&
      decide (counts s.staff_id < s.max_shifts)) =
      decide (spec_candidate counts day slot s) := by
  unfold is_available_for_slot spec_candidate
  by_cases h2 : slot = "LUNCH"
  · subst h2
    have hd : ¬(("LUNCH" : String) = "DINNER") := by decide
    by_cases h1 : day ∈ s.available_days_list <;>
      by_cases h4 : s.can_lunch = 1 <;>
        by_cases h6 : counts s.staff_id < s.max_shifts <;>
          simp [h1, h4, h6, hd]
  · by_cases h3 : slot = "DINNER"
    · subst h3
      have hd : ¬(("DINNER" : String) = "LUNCH") := by decide
      by_cases h1 : day ∈ s.available_days_list <;>
        by_cases h5 : s.can_dinner = 1 <;>
          by_cases h6 : counts s.staff_id < s.max_shifts <;>
            simp [h1, h5, h6, hd]
    · by_cases h1 : day ∈ s.available_days_list <;>
        by_cases h6 : counts s.staff_id < s.max_shifts <;>
          simp [h1, h2, h3, h6]

theorem select_eq_spec_select (staff_df : List Staff) (counts : String → Nat)
    (day slot : String) (sh eh : Int) (rq mv mk : Nat) :
    select_staff_for_shift staff_df counts day slot sh eh rq mv mk =
      spec_select staff_df counts day slot sh rq mv mk := by
  simp only [select_staff_for_shift, select_staff_core, spec_select]
  have hmv : (if (day = "金" ∨ day = "土") ∧ 17 ≤ sh then
      (if mv < 1 then 1 else mv) else mv) =
      spec_effective_min_veterans day sh mv := by
    unfold spec_effective_min_veterans
    by_cases h : (day = "金" ∨ day = "土") ∧ 17 ≤ sh
    · rw [if_pos h, if_pos h]
      split_ifs with h2 <;> omega
    · rw [if_neg h, if_neg h]
  rw [hmv]
  have hcand : (fun (s : Staff) => is_available_for_slot s day slot &&
      decide (counts s.staff_id < s.max_shifts)) =
      (fun s => decide (spec_candidate counts day slot s)) := by
    funext s
    exact candidate_equiv counts day slot s
  rw [hcand]
  have hnb0 : (fun (x : Staff) => x.is_newbie == 0) =
      (fun x => decide (x.is_newbie = 0)) := by
    funext x
    by_cases h : x.is_newbie = 0 <;> simp [h]
  have hnb1 : (fun (x : Staff) => x.is_newbie == 1) =
      (fun x => decide (x.is_newbie = 1)) := by
    funext x
    by_cases h : x.is_newbie = 1 <;> simp [h]
  rw [hnb0, hnb1]
  simp only [spec_take_eq_pick, Prod.mk.eta, Bool.or_false,
    current_kitchen_count]
  by_cases hem : (staff_df.filter
      (fun s => decide (spec_candidate counts day slot s))).isEmpty
  · rw [if_pos hem]
    rw [List.isEmpty_iff.mp hem]
    rfl
  · rw [if_neg hem]

/-- C3: the Slot Allocator coincides, on every input, with the
specification's §4.3 algorithm `spec_select` (evening override, candidate
filter, three pools stable-sorted ascending by current assigned count, then
the four greedy passes (a)-(d) with a per-call used-id set); and in the §8
scenario — newcomer A with max-shifts 1 and assigned count 0, veteran B
with max-shifts 5 and assigned count 4, a Saturday 18-23 slot with
headcount 1 and min-veteran 1 — the allocator selects B and not A. -/
theorem C3_allocator_refines_spec :
    (∀ (staff_df : List Staff) (counts : String → Nat) (day slot : String)
        (sh eh : Int) (rq mv mk : Nat),
        select_staff_for_shift staff_df counts day slot sh eh rq mv mk =
          spec_select staff_df counts day slot sh rq mv mk) ∧
      select_staff_for_shift [fxNewbieA, fxVetB] fxCountsA0B4 "土" "DINNER"
        18 23 1 1 1 = [fxVetB] := by
  constructor
  · intro staff_df counts day slot sh eh rq mv mk
    exact select_eq_spec_select staff_df counts day slot sh eh rq mv mk
  · decide
